import Mathlib

/-!
Verification of the orchestrate repository's core against its specification.

The definitions below are shallow embeddings of the Go source:
strings are Lean `String`s (Go byte-level operations are modelled at the
character level; all inputs the claims exercise are ASCII, where the two
agree), machine integers are `Int`, fallible operations return `Option` or
`Except`, and external collaborators (the git binary, the filesystem, the
terminal application) are modelled as explicit oracle parameters together
with the list of calls issued to them.
-/

namespace Orchestrate

/-- The single-quote character, written by code point to keep string
literals free of quote characters. -/
def squote : Char := '\x27'

/-- The backslash character. -/
def bslash : Char := '\\'

/-- Embeds terminal.SessionInfo (unnamed/part_004): one launch unit, either
an agent session or a custom-command session. Go `int` color channels are
modelled as `Int`. -/
structure SessionInfo where
  Path : String := ""
  Branch : String := ""
  Agent : String := ""
  Command : String := ""
  Title : String := ""
  ColorR : Int := 0
  ColorG : Int := 0
  ColorB : Int := 0
  WorktreePath : String := ""
  WorktreeBranch : String := ""
  IsCustomCommand : Bool := false
deriving DecidableEq, Repr

/-- Embeds agents.RGBColor (agents/agents.go). -/
structure RGBColor where
  R : Int
  G : Int
  B : Int
deriving DecidableEq, Repr

/-- Embeds agents.GetColor backed by agents.DefaultColors: the fixed
agent-name to color table. -/
def GetColor (agent : String) : Option RGBColor :=
  if agent = "droid" then some ⟨255, 140, 0⟩
  else if agent = "claude" then some ⟨210, 180, 140⟩
  else if agent = "codex" then some ⟨30, 30, 30⟩
  else none

/-- Per-character expansion performed by
`strings.ReplaceAll(prompt, "'", "'\\''")` in BuildAgentCommand
(unnamed/part_004 line 103): each single quote becomes the four characters
quote, backslash, quote, quote; every other character is kept. Since the
pattern is a single character, ReplaceAll is exactly this character-wise
expansion. -/
def escPromptChar (c : Char) : List Char :=
  if c = squote then [squote, bslash, squote, squote] else [c]

/-- The escaped prompt, as a character list. -/
def escapedPromptChars (p : List Char) : List Char :=
  p.flatMap escPromptChar

/-- The escaped prompt as a `String`: models the Go `escapedPrompt`
local in BuildAgentCommand. -/
def escapedPrompt (p : String) : String :=
  ⟨escapedPromptChars p.data⟩

/-- The single-quoted prompt argument exactly as it appears in the
format string `... %s '%s'\n` of BuildAgentCommand: a quote, the escaped
prompt, a quote. -/
def quotedPromptArg (p : String) : String :=
  String.mk [squote] ++ escapedPrompt p ++ String.mk [squote]

/-- The color escape-sequence segment shared by BuildAgentCommand and the
main.go sendCommand helper: three brightness triplets for R, G, B. -/
def colorEscape (r g b : Int) : String :=
  " && echo -ne \x27\\033]6;1;bg;red;brightness;" ++ toString r ++
  "\\007\\033]6;1;bg;green;brightness;" ++ toString g ++
  "\\007\\033]6;1;bg;blue;brightness;" ++ toString b ++ "\\007\x27"

/-- The title, color and cd prefix of BuildAgentCommand, i.e. everything
of the built string before the quoted prompt argument. -/
def buildAgentHead (s : SessionInfo) : String :=
  let title := s.Agent ++ ": " ++ s.Branch
  let titleCmd := "echo -ne \x27\\033]0;" ++ title ++ "\\007\x27"
  let colorCmd :=
    match GetColor s.Agent with
    | some c => colorEscape c.R c.G c.B
    | none => ""
  titleCmd ++ colorCmd ++ " && cd \"" ++ s.Path ++ "\" && " ++ s.Agent ++ " "

/-- Embeds terminal.BuildAgentCommand (unnamed/part_004 lines 91-105):
`fmt.Sprintf("%s%s && cd \"%s\" && %s '%s'\n", titleCmd, colorCmd, s.Path,
s.Agent, escapedPrompt)`. -/
def BuildAgentCommand (s : SessionInfo) (prompt : String) : String :=
  buildAgentHead s ++ quotedPromptArg prompt ++ "\n"

/-- Modelled from the spec: a POSIX single-quote-aware unescape of one
shell word. Outside single quotes a backslash escapes the next character
and a quote toggles into quoted mode; inside single quotes every character
up to the closing quote is literal. Returns `none` on a dangling backslash
or an unterminated quote. The flag is `true` while inside single quotes. -/
def posixUnquoteChars : Bool → List Char → Option (List Char)
  | false, [] => some []
  | false, c :: rest =>
    if c = bslash then
      match rest with
      | [] => none
      | d :: rest2 => (posixUnquoteChars false rest2).map (d :: ·)
    else if c = squote then posixUnquoteChars true rest
    else (posixUnquoteChars false rest).map (c :: ·)
  | true, [] => none
  | true, c :: rest =>
    if c = squote then posixUnquoteChars false rest
    else (posixUnquoteChars true rest).map (c :: ·)

/-- The POSIX unescape on strings, starting outside quotes. -/
def posixUnquote (s : String) : Option String :=
  (posixUnquoteChars false s.data).map fun l => ⟨l⟩

theorem strData_append (a b : String) : (a ++ b).data = a.data ++ b.data := rfl

theorem squote_ne_bslash : squote ≠ bslash := by decide

theorem unq_false_squote (l : List Char) :
    posixUnquoteChars false (squote :: l) = posixUnquoteChars true l := by
  rw [posixUnquoteChars.eq_def]
  simp [squote_ne_bslash]

theorem unq_false_bslash (d : Char) (l : List Char) :
    posixUnquoteChars false (bslash :: d :: l) =
      (posixUnquoteChars false l).map (d :: ·) := by
  rw [posixUnquoteChars.eq_def]
  simp

theorem unq_true_squote (l : List Char) :
    posixUnquoteChars true (squote :: l) = posixUnquoteChars false l := by
  rw [posixUnquoteChars.eq_def]
  simp

theorem unq_true_other (c : Char) (l : List Char) (h : c ≠ squote) :
    posixUnquoteChars true (c :: l) = (posixUnquoteChars true l).map (c :: ·) := by
  rw [posixUnquoteChars.eq_def]
  simp [h]

theorem posixUnquoteChars_inside (p : List Char) :
    posixUnquoteChars true (escapedPromptChars p ++ [squote]) = some p := by
  induction p with
  | nil => simp [escapedPromptChars, posixUnquoteChars]
  | cons c p ih =>
    by_cases hc : c = squote
    · subst hc
      have hesc : escPromptChar squote = [squote, bslash, squote, squote] := by
        simp [escPromptChar]
      simp only [escapedPromptChars, List.flatMap_cons, hesc, List.append_assoc,
        List.cons_append, List.nil_append] at ih ⊢
      rw [unq_true_squote, unq_false_bslash, unq_false_squote, ih]
      rfl
    · have hesc : escPromptChar c = [c] := by simp [escPromptChar, hc]
      simp only [escapedPromptChars, List.flatMap_cons, hesc, List.append_assoc,
        List.cons_append, List.nil_append] at ih ⊢
      rw [unq_true_other c _ hc, ih]
      rfl

/-- C1: for every prompt string `p`, BuildAgentCommand places the prompt as
a single-quoted argument with each embedded quote expanded to
quote-backslash-quote-quote, and the POSIX single-quote-aware unescape of
that quoted argument recovers `p` exactly (round-trip). -/
theorem buildAgentCommand_prompt_roundTrip (s : SessionInfo) (p : String) :
    BuildAgentCommand s p = buildAgentHead s ++ quotedPromptArg p ++ "\n" ∧
    posixUnquote (quotedPromptArg p) = some p := by
  refine ⟨rfl, ?_⟩
  have hdata : (quotedPromptArg p).data =
      squote :: (escapedPromptChars p.data ++ [squote]) := by
    simp [quotedPromptArg, strData_append, escapedPrompt]
  rw [posixUnquote, hdata, unq_false_squote, posixUnquoteChars_inside]
  rfl

/-- Characters stripped by Go's strings.TrimSpace (unicode.IsSpace):
tab through carriage return, space, NEL, NBSP, and the Unicode space
separators. -/
def isGoSpace (c : Char) : Bool :=
  decide ((9 ≤ c.toNat ∧ c.toNat ≤ 13) ∨ c.toNat = 32 ∨ c.toNat = 0x85 ∨
    c.toNat = 0xA0 ∨ c.toNat = 0x1680 ∨ (0x2000 ≤ c.toNat ∧ c.toNat ≤ 0x200A) ∨
    c.toNat = 0x2028 ∨ c.toNat = 0x2029 ∨ c.toNat = 0x202F ∨
    c.toNat = 0x205F ∨ c.toNat = 0x3000)

/-- Embeds strings.TrimSpace: removes leading and trailing space
characters. -/
def TrimSpace (s : String) : String :=
  ⟨((s.data.dropWhile isGoSpace).reverse.dropWhile isGoSpace).reverse⟩

/-- The round pushpin character used by BuildCustomCommand's branch
announcement, written by code point. -/
def pinChar : Char := Char.ofNat 0x1F4CD

/-- The title of a custom-command session (BuildCustomCommand lines
110-116): the title, defaulting to "terminal", prefixed with the branch in
brackets when a worktree branch is known. -/
def customTitle (s : SessionInfo) : String :=
  let t := if s.Title = "" then "terminal" else s.Title
  if s.WorktreeBranch ≠ "" then "[" ++ s.WorktreeBranch ++ "] " ++ t else t

/-- The terminal-title escape segment of BuildCustomCommand. -/
def customTitleCmd (s : SessionInfo) : String :=
  "echo -ne \x27\\033]0;" ++ customTitle s ++ "\\007\x27"

/-- The color segment of BuildCustomCommand (lines 120-123): emitted only
when some channel is strictly positive. -/
def customColorCmd (r g b : Int) : String :=
  if r > 0 ∨ g > 0 ∨ b > 0 then colorEscape r g b else ""

/-- The directory-change segment of BuildCustomCommand (lines 126-129). -/
def customCdCmd (s : SessionInfo) : String :=
  if s.WorktreePath ≠ "" then " && cd \"" ++ s.WorktreePath ++ "\"" else ""

/-- The branch-announcement segment of BuildCustomCommand (lines
132-135). -/
def customBranchCmd (s : SessionInfo) : String :=
  if s.WorktreeBranch ≠ "" then
    " && echo \x27" ++ String.mk [pinChar] ++ " Branch: " ++ s.WorktreeBranch ++ "\x27"
  else ""

/-- Everything of the custom-command bootstrap string before the payload:
title, color, cd and branch-announcement segments. -/
def buildCustomHead (s : SessionInfo) : String :=
  customTitleCmd s ++ customColorCmd s.ColorR s.ColorG s.ColorB ++
    customCdCmd s ++ customBranchCmd s

/-- Embeds terminal.BuildCustomCommand (unnamed/part_004 lines 108-145):
the payload is the whitespace-trimmed command, and it is omitted entirely
(with its join operator) when the trimmed command is empty or the
two-character sequence backslash-n. -/
def BuildCustomCommand (s : SessionInfo) : String :=
  let cmd := TrimSpace s.Command
  if cmd = "" ∨ cmd = "\\n" then buildCustomHead s ++ "\n"
  else buildCustomHead s ++ " && " ++ cmd ++ "\n"

/-- Modelled from claim C4's words (for comparison with the source
definition): the payload is the command text verbatim, omitted only when
that text is empty or exactly backslash-n. -/
def BuildCustomCommandClaimed (s : SessionInfo) : String :=
  if s.Command = "" ∨ s.Command = "\\n" then buildCustomHead s ++ "\n"
  else buildCustomHead s ++ " && " ++ s.Command ++ "\n"

/-- A custom-command session whose command has surrounding whitespace;
the builder trims it, the claimed behavior would keep it verbatim. -/
def c4Counterexample : SessionInfo :=
  { Command := " ls ", Title := "Extra Terminal", WorktreePath := "/w",
    WorktreeBranch := "x", IsCustomCommand := true }

/-- C4 counterexample: on the command " ls " the built bootstrap string is
not the claimed one — the payload segment is the trimmed command "ls",
not the verbatim text " ls ". -/
theorem buildCustomCommand_not_verbatim :
    BuildCustomCommand c4Counterexample ≠ BuildCustomCommandClaimed c4Counterexample := by
  decide

/-- C4 amended: the payload segment of a custom-command bootstrap string
is the whitespace-trimmed command text, and when that trimmed text is
empty or exactly backslash-n no payload segment is appended: the string
ends after the branch-announcement segment with no trailing join operator
and a final newline. -/
theorem buildCustomCommand_payload (s : SessionInfo) :
    (TrimSpace s.Command = "" ∨ TrimSpace s.Command = "\\n" →
      BuildCustomCommand s = buildCustomHead s ++ "\n") ∧
    (¬(TrimSpace s.Command = "" ∨ TrimSpace s.Command = "\\n") →
      BuildCustomCommand s = buildCustomHead s ++ " && " ++ TrimSpace s.Command ++ "\n") := by
  constructor
  · intro h
    simp [BuildCustomCommand, h]
  · intro h
    simp [BuildCustomCommand, h]

/-- The empty-command scenario of claim C4: command "", title
"Extra Terminal", branch "x". -/
def c4Scenario : SessionInfo :=
  { Command := "", Title := "Extra Terminal", WorktreePath := "/w",
    WorktreeBranch := "x", IsCustomCommand := true }

/-- Witness for the amended C4 at the spec's scenario input. -/
theorem buildCustomCommand_payload_witness :
    (TrimSpace c4Scenario.Command = "" ∨ TrimSpace c4Scenario.Command = "\\n") ∧
    BuildCustomCommand c4Scenario = buildCustomHead c4Scenario ++ "\n" :=
  ⟨Or.inl (by decide), (buildCustomCommand_payload c4Scenario).1 (Or.inl (by decide))⟩

/-- Embeds the character cases of config.sscanHex (config/config.go lines
189-206): decimal digits, lowercase a-f, uppercase A-F; anything else is
an invalid hex character. Written over code points (48-57 is 0-9, 97-102
is a-f, 65-70 is A-F). -/
def hexVal? (c : Char) : Option Int :=
  if 48 ≤ c.toNat ∧ c.toNat ≤ 57 then some ((c.toNat : Int) - 48)
  else if 97 ≤ c.toNat ∧ c.toNat ≤ 102 then some ((c.toNat : Int) - 97 + 10)
  else if 65 ≤ c.toNat ∧ c.toNat ≤ 70 then some ((c.toNat : Int) - 65 + 10)
  else none

/-- Embeds config.sscanHex: folds val*16 + digit over the characters,
failing on the first invalid one. -/
def sscanHex (l : List Char) : Option Int :=
  l.foldl
    (fun acc c =>
      match acc, hexVal? c with
      | some v, some d => some (16 * v + d)
      | _, _ => none)
    (some 0)

/-- Removal of the optional leading hash in ParseHexColor (config.go lines
164-167). -/
def stripHash (l : List Char) : List Char :=
  match l with
  | [] => []
  | c :: r => if c = '#' then r else c :: r

/-- Embeds config.ParseHexColor (config/config.go lines 158-186): empty
input fails, an optional leading hash is removed, the remainder must be
exactly six characters, and the three two-character slices are parsed as
hex. Go indexes bytes where this model indexes characters; the two agree
on which inputs are six hex digits (hex digits are ASCII), and both
return (0,0,0,false) on every other input. -/
def ParseHexColor (hex : String) : Int × Int × Int × Bool :=
  if hex.data.length = 0 then (0, 0, 0, false)
  else
    let ds := stripHash hex.data
    if ds.length ≠ 6 then (0, 0, 0, false)
    else
      match sscanHex (ds.take 2), sscanHex ((ds.drop 2).take 2),
          sscanHex ((ds.drop 4).take 2) with
      | some rv, some gv, some bv => (rv, gv, bv, true)
      | _, _, _ => (0, 0, 0, false)

/-- A character the source's sscanHex accepts. -/
def isHexDigitChar (c : Char) : Bool :=
  (hexVal? c).isSome

theorem hexVal?_bound (c : Char) (x : Int) (h : hexVal? c = some x) :
    0 ≤ x ∧ x ≤ 15 := by
  unfold hexVal? at h
  split_ifs at h with h1 h2 h3 <;> simp only [Option.some.injEq] at h <;> omega

theorem sscanHex_pair (a b : Char) (x y : Int) (ha : hexVal? a = some x)
    (hb : hexVal? b = some y) : sscanHex [a, b] = some (16 * x + y) := by
  simp [sscanHex, ha, hb]

theorem sscanHex_pair_none_left (a b : Char) (ha : hexVal? a = none) :
    sscanHex [a, b] = none := by
  cases hb : hexVal? b <;> simp [sscanHex, ha, hb]

theorem sscanHex_pair_none_right (a b : Char) (hb : hexVal? b = none) :
    sscanHex [a, b] = none := by
  cases ha : hexVal? a <;> simp [sscanHex, ha, hb]

theorem length_six_destruct (l : List Char) (h : l.length = 6) :
    ∃ a b c d e f, l = [a, b, c, d, e, f] := by
  rcases l with _ | ⟨a, _ | ⟨b, _ | ⟨c, _ | ⟨d, _ | ⟨e, _ | ⟨f, _ | ⟨g, l⟩⟩⟩⟩⟩⟩⟩ <;>
    simp_all

/-- The statement pattern of claim C9, abstracted over the input. -/
def C9Statement (hex : String) : Prop :=
  ((ParseHexColor hex).2.2.2 = true ↔
    (stripHash hex.data).length = 6 ∧
      ∀ c ∈ stripHash hex.data, isHexDigitChar c = true) ∧
  ((ParseHexColor hex).2.2.2 = true →
    0 ≤ (ParseHexColor hex).1 ∧ (ParseHexColor hex).1 ≤ 255 ∧
    0 ≤ (ParseHexColor hex).2.1 ∧ (ParseHexColor hex).2.1 ≤ 255 ∧
    0 ≤ (ParseHexColor hex).2.2.1 ∧ (ParseHexColor hex).2.2.1 ≤ 255) ∧
  ((ParseHexColor hex).2.2.2 = false → ParseHexColor hex = (0, 0, 0, false)) ∧
  ((ParseHexColor hex).2.2.2 = false →
    customColorCmd (ParseHexColor hex).1 (ParseHexColor hex).2.1
      (ParseHexColor hex).2.2.1 = "")

theorem c9_false_side (hex : String)
    (hfalse : ParseHexColor hex = (0, 0, 0, false))
    (hbad : ¬((stripHash hex.data).length = 6 ∧
      ∀ c ∈ stripHash hex.data, isHexDigitChar c = true)) :
    C9Statement hex := by
  refine ⟨?_, ?_, ?_, ?_⟩
  · rw [hfalse]
    exact iff_of_false (by simp) hbad
  · rw [hfalse]
    intro h
    simp at h
  · intro _
    exact hfalse
  · rw [hfalse]
    intro _
    simp [customColorCmd]

theorem c9_main (hex : String) : C9Statement hex := by
  by_cases hzero : hex.data.length = 0
  · have hstrip : stripHash hex.data = [] := by
      rcases h : hex.data with _ | ⟨c0, cs0⟩
      · simp [stripHash]
      · rw [h] at hzero
        simp at hzero
    refine c9_false_side hex ?_ ?_
    · rw [ParseHexColor, if_pos hzero]
    · rw [hstrip]
      simp
  · by_cases hlen : (stripHash hex.data).length = 6
    · obtain ⟨a, b, c, d, e, f, habcdef⟩ := length_six_destruct _ hlen
      have hparse : ParseHexColor hex =
          match sscanHex [a, b], sscanHex [c, d], sscanHex [e, f] with
          | some rv, some gv, some bv => (rv, gv, bv, true)
          | _, _, _ => (0, 0, 0, false) := by
        rw [ParseHexColor, if_neg hzero, if_neg (by rw [hlen]; simp), habcdef]
        rfl
      rcases hva : hexVal? a with _ | x
      · refine c9_false_side hex ?_ ?_
        · rw [hparse, sscanHex_pair_none_left a b hva]
        · rintro ⟨-, hall⟩
          have := hall a (by rw [habcdef]; simp)
          rw [isHexDigitChar, hva] at this
          simp at this
      · rcases hvb : hexVal? b with _ | y
        · refine c9_false_side hex ?_ ?_
          · rw [hparse, sscanHex_pair_none_right a b hvb]
          · rintro ⟨-, hall⟩
            have := hall b (by rw [habcdef]; simp)
            rw [isHexDigitChar, hvb] at this
            simp at this
        · have h1 := sscanHex_pair a b x y hva hvb
          rcases hvc : hexVal? c with _ | z
          · refine c9_false_side hex ?_ ?_
            · rw [hparse, h1, sscanHex_pair_none_left c d hvc]
            · rintro ⟨-, hall⟩
              have := hall c (by rw [habcdef]; simp)
              rw [isHexDigitChar, hvc] at this
              simp at this
          · rcases hvd : hexVal? d with _ | w
            · refine c9_false_side hex ?_ ?_
              · rw [hparse, h1, sscanHex_pair_none_right c d hvd]
              · rintro ⟨-, hall⟩
                have := hall d (by rw [habcdef]; simp)
                rw [isHexDigitChar, hvd] at this
                simp at this
            · have h2 := sscanHex_pair c d z w hvc hvd
              rcases hve : hexVal? e with _ | u
              · refine c9_false_side hex ?_ ?_
                · rw [hparse, h1, h2, sscanHex_pair_none_left e f hve]
                · rintro ⟨-, hall⟩
                  have := hall e (by rw [habcdef]; simp)
                  rw [isHexDigitChar, hve] at this
                  simp at this
              · rcases hvf : hexVal? f with _ | v
                · refine c9_false_side hex ?_ ?_
                  · rw [hparse, h1, h2, sscanHex_pair_none_right e f hvf]
                  · rintro ⟨-, hall⟩
                    have := hall f (by rw [habcdef]; simp)
                    rw [isHexDigitChar, hvf] at this
                    simp at this
                · have h3 := sscanHex_pair e f u v hve hvf
                  have hok : ParseHexColor hex =
                      (16 * x + y, 16 * z + w, 16 * u + v, true) := by
                    rw [hparse, h1, h2, h3]
                  have bx := hexVal?_bound a x hva
                  have bb := hexVal?_bound b y hvb
                  have bc := hexVal?_bound c z hvc
                  have bd := hexVal?_bound d w hvd
                  have be := hexVal?_bound e u hve
                  have bf := hexVal?_bound f v hvf
                  refine ⟨?_, ?_, ?_, ?_⟩
                  · rw [hok]
                    refine iff_of_true rfl ⟨hlen, ?_⟩
                    intro ch hch
                    rw [habcdef] at hch
                    simp only [List.mem_cons, List.not_mem_nil, or_false] at hch
                    rcases hch with h | h | h | h | h | h <;> subst h <;>
                      simp [isHexDigitChar, hva, hvb, hvc, hvd, hve, hvf]
                  · rw [hok]
                    intro _
                    dsimp only
                    omega
                  · rw [hok]
                    intro h
                    simp at h
                  · rw [hok]
                    intro h
                    simp at h
    · refine c9_false_side hex ?_ ?_
      · rw [ParseHexColor, if_neg hzero, if_pos hlen]
      · rintro ⟨h6, -⟩
        exact hlen h6

/-- C9: ParseHexColor is total and returns ok = true, with every channel
in 0..255, exactly when the input minus an optional leading hash is six
hex digits (upper or lower case); on every other input, including the
empty string, it returns (0,0,0,false), and the custom-command builder
then emits no color escape segment. -/
theorem parseHexColor_characterization (hex : String) : C9Statement hex :=
  c9_main hex

/-- One invocation of the external git binary: the working directory and
the argument list (git.Commander.Run in git/git.go). -/
structure GitCall where
  dir : String
  args : List String
deriving DecidableEq, Repr

/-- An oracle standing for the external git binary: maps a call to the
combined output and, on failure, an error message (git.Commander). -/
def Commander := String → List String → String × Option String

/-- Embeds strings.Split(s, "/") at the character level: the list of
slash-separated fields (Go's Split with a one-character separator). -/
def splitSlash : List Char → List (List Char)
  | [] => [[]]
  | c :: rest =>
    let r := splitSlash rest
    if c = '/' then [] :: r
    else
      match r with
      | [] => [[c]]
      | h :: t => (c :: h) :: t

theorem splitSlash_ne_nil (l : List Char) : splitSlash l ≠ [] := by
  induction l with
  | nil => simp [splitSlash]
  | cons c rest ih =>
    rw [splitSlash.eq_def]
    rcases h : splitSlash rest with _ | ⟨hd, tl⟩
    · exact absurd h ih
    · by_cases hc : c = '/' <;> simp [hc, h]

theorem splitSlash_length (l : List Char) :
    (splitSlash l).length = l.count '/' + 1 := by
  induction l with
  | nil => simp [splitSlash]
  | cons c rest ih =>
    rw [splitSlash.eq_def]
    by_cases hc : c = '/'
    · subst hc
      simp [ih, List.count_cons]
    · rcases h : splitSlash rest with _ | ⟨hd, tl⟩
      · exact absurd h (splitSlash_ne_nil rest)
      · rw [h] at ih
        simp only [if_neg hc, h, List.length_cons] at ih ⊢
        rw [List.count_cons, if_neg (by simpa using hc)]
        omega

/-- The three git calls of FetchAndResetWithCmd, in their fixed order. -/
def fetchCall (repoPath : String) : GitCall := ⟨repoPath, ["fetch", "origin", "main"]⟩

def resetCall (repoPath : String) : GitCall := ⟨repoPath, ["reset", "--hard", "origin/main"]⟩

def cleanCall (repoPath : String) : GitCall := ⟨repoPath, ["clean", "-fd"]⟩

/-- Embeds git.FetchAndResetWithCmd (git/git.go lines 149-169): fetch
origin main, hard-reset to origin/main, clean untracked files, in that
order, aborting at the first failure with the tool's output attached to
the error. Returns the error (if any) and the list of git calls issued. -/
def FetchAndResetWithCmd (run : Commander) (repoPath : String) :
    Option String × List GitCall :=
  let r1 := run repoPath (fetchCall repoPath).args
  match r1.2 with
  | some e => (some ("fetch failed: " ++ e ++ ": " ++ r1.1), [fetchCall repoPath])
  | none =>
    let r2 := run repoPath (resetCall repoPath).args
    match r2.2 with
    | some e =>
      (some ("reset failed: " ++ e ++ ": " ++ r2.1),
        [fetchCall repoPath, resetCall repoPath])
    | none =>
      let r3 := run repoPath (cleanCall repoPath).args
      match r3.2 with
      | some e =>
        (some ("clean failed: " ++ e ++ ": " ++ r3.1),
          [fetchCall repoPath, resetCall repoPath, cleanCall repoPath])
      | none =>
        (none, [fetchCall repoPath, resetCall repoPath, cleanCall repoPath])

/-- The derived cache path for a conforming spec:
filepath.Join(baseDir, owner-name), with Join modelled as separator
concatenation. -/
def derivedRepoPath (baseDir owner repo : String) : String :=
  baseDir ++ "/" ++ owner ++ "-" ++ repo

/-- The clone URL built for a conforming spec. -/
def repoCloneURL (owner repo : String) : String :=
  "https://github.com/" ++ owner ++ "/" ++ repo ++ ".git"

/-- Embeds git.EnsureRepoWithCmd (git/git.go lines 106-141). The repo spec
is split on slashes and must have exactly two fields; the derived local
path is baseDir/owner-name; `gitDirExists` stands for the os.Stat check of
repoPath/.git, and os.MkdirAll of the base directory (a filesystem call,
not a git process) is modelled as succeeding. Returns the result and the
list of git calls issued. -/
def EnsureRepoWithCmd (run : Commander) (gitDirExists : String → Bool)
    (repoSpec baseDir : String) : Except String String × List GitCall :=
  match splitSlash repoSpec.data with
  | [ownerCs, repoCs] =>
    let owner : String := ⟨ownerCs⟩
    let repo : String := ⟨repoCs⟩
    let repoURL := repoCloneURL owner repo
    let repoPath := derivedRepoPath baseDir owner repo
    if gitDirExists repoPath then
      match FetchAndResetWithCmd run repoPath with
      | (some e, calls) => (Except.error ("failed to update repo: " ++ e), calls)
      | (none, calls) => (Except.ok repoPath, calls)
    else
      let r := run "" ["clone", repoURL, repoPath]
      match r.2 with
      | some e =>
        (Except.error ("failed to clone repo: " ++ e ++ ": " ++ r.1),
          [⟨"", ["clone", repoURL, repoPath]⟩])
      | none => (Except.ok repoPath, [⟨"", ["clone", repoURL, repoPath]⟩])
  | _ =>
    (Except.error ("invalid repo format: \"" ++ repoSpec ++
      "\" (expected \x27owner/repo\x27)"), [])

/-- A git oracle on which every call succeeds with empty output. -/
def allOkRun : Commander := fun _ _ => ("", none)

/-- A filesystem oracle on which no cached mirror exists. -/
def noMirror : String → Bool := fun _ => false

theorem fetchAndReset_head (run : Commander) (P : String) :
    (FetchAndResetWithCmd run P).2.head? = some (fetchCall P) := by
  rw [FetchAndResetWithCmd]
  cases h1 : (run P (fetchCall P).args).2 with
  | none =>
    cases h2 : (run P (resetCall P).args).2 with
    | none =>
      cases h3 : (run P (cleanCall P).args).2 with
      | none => simp [h1, h2, h3]
      | some e3 => simp [h1, h2, h3]
    | some e2 => simp [h1, h2]
  | some e1 => simp [h1]

/-- C3 counterexample: the spec "/repo" is not of the form owner/name with
non-empty sides, yet EnsureRepoWithCmd does not fail up front: it proceeds
and issues a git clone call. -/
theorem ensureRepo_slash_repo_not_rejected :
    ((EnsureRepoWithCmd allOkRun noMirror "/repo" "base").2 ≠ []) ∧
    (EnsureRepoWithCmd allOkRun noMirror "/repo" "base").1 =
      Except.ok "base/-repo" := by
  constructor
  · decide
  · rfl

/-- C3 amended: EnsureRepoWithCmd fails with the invalid-spec error,
before issuing any git call, exactly for the specs that do not contain
exactly one slash (so "ownerrepo" and "a/b/c" fail up front); every spec
with exactly one slash, including "/repo" and "owner/" with an empty
side, proceeds to a fetch of the cached mirror or a clone. -/
theorem ensureRepo_spec_validation (run : Commander) (gitDirExists : String → Bool)
    (repoSpec baseDir : String) :
    (repoSpec.data.count '/' ≠ 1 →
      EnsureRepoWithCmd run gitDirExists repoSpec baseDir =
        (Except.error ("invalid repo format: \"" ++ repoSpec ++
          "\" (expected \x27owner/repo\x27)"), [])) ∧
    (∀ ownerCs repoCs, splitSlash repoSpec.data = [ownerCs, repoCs] →
      (EnsureRepoWithCmd run gitDirExists repoSpec baseDir).2.head? =
        some (if gitDirExists (derivedRepoPath baseDir ⟨ownerCs⟩ ⟨repoCs⟩) then
          fetchCall (derivedRepoPath baseDir ⟨ownerCs⟩ ⟨repoCs⟩)
        else
          ⟨"", ["clone", repoCloneURL ⟨ownerCs⟩ ⟨repoCs⟩,
            derivedRepoPath baseDir ⟨ownerCs⟩ ⟨repoCs⟩]⟩)) := by
  constructor
  · intro hcount
    have hlen : (splitSlash repoSpec.data).length ≠ 2 := by
      rw [splitSlash_length]
      omega
    rw [EnsureRepoWithCmd.eq_def]
    rcases hs : splitSlash repoSpec.data with _ | ⟨o, _ | ⟨r, _ | ⟨t, rest⟩⟩⟩ <;>
      simp_all
  · intro ownerCs repoCs hs
    rw [EnsureRepoWithCmd.eq_def, hs]
    by_cases hex : gitDirExists (derivedRepoPath baseDir ⟨ownerCs⟩ ⟨repoCs⟩) = true
    · simp only [hex, if_true]
      rcases hres : FetchAndResetWithCmd run (derivedRepoPath baseDir ⟨ownerCs⟩ ⟨repoCs⟩)
        with ⟨err, calls⟩
      have hh := fetchAndReset_head run (derivedRepoPath baseDir ⟨ownerCs⟩ ⟨repoCs⟩)
      rw [hres] at hh
      rcases err with _ | e <;> simpa using hh
    · simp only [Bool.not_eq_true] at hex
      simp only [hex, Bool.false_eq_true, if_false]
      cases hr : (run "" ["clone", repoCloneURL ⟨ownerCs⟩ ⟨repoCs⟩,
          derivedRepoPath baseDir ⟨ownerCs⟩ ⟨repoCs⟩]).2 with
      | none => simp [hr]
      | some e => simp [hr]

/-- Witness for the amended C3 at the spec's own scenario inputs:
"ownerrepo" (no slash) and "a/b/c" (two slashes) are rejected with the
invalid-spec error and no git call, while "groq/orion" proceeds straight
to a clone when no mirror is cached. -/
theorem ensureRepo_spec_validation_witness :
    ("ownerrepo".data.count '/' ≠ 1 ∧
      EnsureRepoWithCmd allOkRun noMirror "ownerrepo" "base" =
        (Except.error ("invalid repo format: \"" ++ "ownerrepo" ++
          "\" (expected \x27owner/repo\x27)"), [])) ∧
    ("a/b/c".data.count '/' ≠ 1 ∧
      EnsureRepoWithCmd allOkRun noMirror "a/b/c" "base" =
        (Except.error ("invalid repo format: \"" ++ "a/b/c" ++
          "\" (expected \x27owner/repo\x27)"), [])) ∧
    (splitSlash "groq/orion".data = ["groq".data, "orion".data] ∧
      (EnsureRepoWithCmd allOkRun noMirror "groq/orion" "base").2.head? =
        some ⟨"", ["clone", "https://github.com/groq/orion.git", "base/groq-orion"]⟩) :=
  ⟨⟨by decide,
    (ensureRepo_spec_validation allOkRun noMirror "ownerrepo" "base").1 (by decide)⟩,
   ⟨by decide,
    (ensureRepo_spec_validation allOkRun noMirror "a/b/c" "base").1 (by decide)⟩,
   ⟨by decide, by
    have h := (ensureRepo_spec_validation allOkRun noMirror "groq/orion" "base").2
      "groq".data "orion".data (by decide)
    simpa [noMirror, derivedRepoPath] using h⟩⟩

/-- C6: when a cached mirror already exists at the derived path,
EnsureRepoWithCmd issues exactly fetch origin main, then reset --hard
origin/main, then clean -fd, in that fixed order; if a step fails the
operation aborts with that tool's output attached to the returned error
and the subsequent calls are not issued. -/
theorem ensureRepo_update_sequence (run : Commander) (gitDirExists : String → Bool)
    (repoSpec baseDir : String) (ownerCs repoCs : List Char)
    (hs : splitSlash repoSpec.data = [ownerCs, repoCs])
    (hex : gitDirExists (derivedRepoPath baseDir ⟨ownerCs⟩ ⟨repoCs⟩) = true) :
    let P := derivedRepoPath baseDir (⟨ownerCs⟩ : String) (⟨repoCs⟩ : String)
    ((run P (fetchCall P).args).2 = none → (run P (resetCall P).args).2 = none →
      (run P (cleanCall P).args).2 = none →
      EnsureRepoWithCmd run gitDirExists repoSpec baseDir =
        (Except.ok P, [fetchCall P, resetCall P, cleanCall P])) ∧
    (∀ e, (run P (fetchCall P).args).2 = some e →
      EnsureRepoWithCmd run gitDirExists repoSpec baseDir =
        (Except.error ("failed to update repo: " ++
          ("fetch failed: " ++ e ++ ": " ++ (run P (fetchCall P).args).1)),
         [fetchCall P])) ∧
    (∀ e, (run P (fetchCall P).args).2 = none →
      (run P (resetCall P).args).2 = some e →
      EnsureRepoWithCmd run gitDirExists repoSpec baseDir =
        (Except.error ("failed to update repo: " ++
          ("reset failed: " ++ e ++ ": " ++ (run P (resetCall P).args).1)),
         [fetchCall P, resetCall P])) ∧
    (∀ e, (run P (fetchCall P).args).2 = none →
      (run P (resetCall P).args).2 = none →
      (run P (cleanCall P).args).2 = some e →
      EnsureRepoWithCmd run gitDirExists repoSpec baseDir =
        (Except.error ("failed to update repo: " ++
          ("clean failed: " ++ e ++ ": " ++ (run P (cleanCall P).args).1)),
         [fetchCall P, resetCall P, cleanCall P])) := by
  intro P
  have hred : EnsureRepoWithCmd run gitDirExists repoSpec baseDir =
      (match FetchAndResetWithCmd run P with
       | (some e, calls) => (Except.error ("failed to update repo: " ++ e), calls)
       | (none, calls) => (Except.ok P, calls)) := by
    rw [EnsureRepoWithCmd.eq_def, hs]
    simp only [hex, if_true]
  refine ⟨?_, ?_, ?_, ?_⟩
  · intro h1 h2 h3
    rw [hred, FetchAndResetWithCmd]
    simp [h1, h2, h3]
  · intro e h1
    rw [hred, FetchAndResetWithCmd]
    simp [h1]
  · intro e h1 h2
    rw [hred, FetchAndResetWithCmd]
    simp [h1, h2]
  · intro e h1 h2 h3
    rw [hred, FetchAndResetWithCmd]
    simp [h1, h2, h3]

/-- A filesystem oracle on which a cached mirror exists everywhere. -/
def mirrorEverywhere : String → Bool := fun _ => true

/-- Witness for C6: with a cached mirror for groq/orion and an
all-succeeding git oracle, exactly the three update calls are issued in
order and the repo path is returned. -/
theorem ensureRepo_update_sequence_witness :
    splitSlash "groq/orion".data = ["groq".data, "orion".data] ∧
    mirrorEverywhere (derivedRepoPath "base" "groq" "orion") = true ∧
    EnsureRepoWithCmd allOkRun mirrorEverywhere "groq/orion" "base" =
      (Except.ok (derivedRepoPath "base" "groq" "orion"),
       [fetchCall (derivedRepoPath "base" "groq" "orion"),
        resetCall (derivedRepoPath "base" "groq" "orion"),
        cleanCall (derivedRepoPath "base" "groq" "orion")]) := by
  refine ⟨by decide, rfl, ?_⟩
  exact (ensureRepo_update_sequence allOkRun mirrorEverywhere "groq/orion" "base"
    "groq".data "orion".data (by decide) rfl).1 rfl rfl rfl

/-- Embeds config.Command (config/config.go lines 14-18): one custom
command attached to a window. Named ConfigCommand because Lean cannot
name a structure and its first field both Command. -/
structure ConfigCommand where
  Command : String := ""
  Title : String := ""
  Color : String := ""
deriving DecidableEq, Repr

/-- Embeds config.Command.GetTitle (config.go lines 21-33). Go measures
and slices bytes; this model measures characters (identical on ASCII
titles and commands). -/
def ConfigCommand.GetTitle (c : ConfigCommand) : String :=
  if c.Title ≠ "" then c.Title
  else if c.Command = "" then "terminal"
  else if c.Command.data.length > 30 then ⟨c.Command.data.take 27⟩ ++ "..."
  else c.Command

/-- Embeds config.Worktree (config/config.go lines 36-40), the window
spec: agent name, replication count n, attached commands. -/
structure Worktree where
  Agent : String := ""
  N : Int := 0
  Commands : List ConfigCommand := []
deriving DecidableEq, Repr

/-- Embeds config.Worktree.GetN (config.go lines 43-48). -/
def Worktree.GetN (w : Worktree) : Int :=
  if w.N ≤ 0 then 1 else w.N

/-- Embeds config.Worktree.IsValid (config.go lines 57-59). -/
def Worktree.IsValid (w : Worktree) : Bool :=
  w.Agent ≠ ""

/-- The effective replication of a window in launcher.Launch (git/git.go
concatenated launcher.go lines 252-255): the window's GetN, overridden by
the CLI multiplier when that is greater than one. -/
def effectiveN (w : Worktree) (multiplier : Int) : Int :=
  if multiplier > 1 then multiplier else w.GetN

/-- The agent unit created for one replica in launcher.Launch: worktree
path, branch, agent name. -/
def mkAgentUnit (w : Worktree) (name repoBase wtDir sfx : String) : SessionInfo :=
  { Path := wtDir ++ "/" ++ repoBase ++ "-" ++ (name ++ "-" ++ sfx),
    Branch := name ++ "-" ++ sfx, Agent := w.Agent }

/-- The command unit created for one commands entry of a replica in
launcher.Launch, inheriting that replica's workspace and branch; its
color channels come from ParseHexColor with the ok flag discarded. -/
def mkCommandUnit (name repoBase wtDir sfx : String) (cmd : ConfigCommand) : SessionInfo :=
  let p := ParseHexColor cmd.Color
  { IsCustomCommand := true, Command := cmd.Command, Title := cmd.GetTitle,
    ColorR := p.1, ColorG := p.2.1, ColorB := p.2.2.1,
    WorktreePath := wtDir ++ "/" ++ repoBase ++ "-" ++ (name ++ "-" ++ sfx),
    WorktreeBranch := name ++ "-" ++ sfx }

/-- The sessions appended for one replica of a window in launcher.Launch
(lines 257-292): the agent unit followed by one command unit per commands
entry. -/
def replicaBlock (w : Worktree) (name repoBase wtDir sfx : String) : List SessionInfo :=
  mkAgentUnit w name repoBase wtDir sfx ::
    w.Commands.map (mkCommandUnit name repoBase wtDir sfx)

/-- The sessions appended for one window in launcher.Launch: one replica
block per loop iteration. `suffix k` stands for the k-th draw of
util.RandomHex(4) across the whole launch, and `ok k` for the success of
the k-th git.CreateWorktree call; a failed creation skips the replica
(continue) but has consumed its suffix. -/
def windowUnits (w : Worktree) (mult : Int) (name repoBase wtDir : String)
    (suffix : Nat → String) (ok : Nat → Bool) (start : Nat) : List SessionInfo :=
  (List.range (effectiveN w mult).toNat).flatMap fun i =>
    if ok (start + i) then replicaBlock w name repoBase wtDir (suffix (start + i))
    else []

/-- The full session list built by launcher.Launch's resolution loop over
the preset (git/git.go concatenated launcher.go lines 251-293). Note: the
loop applies no Worktree.IsValid filter. -/
def launchUnits : List Worktree → Int → String → String → String →
    (Nat → String) → (Nat → Bool) → Nat → List SessionInfo
  | [], _, _, _, _, _, _, _ => []
  | w :: ws, mult, name, repoBase, wtDir, suffix, ok, start =>
      windowUnits w mult name repoBase wtDir suffix ok start ++
      launchUnits ws mult name repoBase wtDir suffix ok
        (start + (effectiveN w mult).toNat)

/-- The empty-preset default of launcher.Launch (lines 246-249): a single
claude window. -/
def launchPreset (preset : List Worktree) : List Worktree :=
  if preset = [] then [{ Agent := "claude" }] else preset

/-- The empty-preset default of the direct-invocation entry point
(main.go lines 442-444): a single droid window. -/
def mainDefaultWindows (ws : List Worktree) : List Worktree :=
  if ws = [] then [{ Agent := "droid" }] else ws

/-- The session list built by main.go's resolution loop (main.go lines
470-521): identical to launcher.Launch's loop except that invalid windows
are skipped with a warning before any replica is created. -/
def mainLaunchUnits : List Worktree → Int → String → String → String →
    (Nat → String) → (Nat → Bool) → Nat → List SessionInfo
  | [], _, _, _, _, _, _, _ => []
  | w :: ws, mult, name, repoBase, wtDir, suffix, ok, start =>
      if w.IsValid then
        windowUnits w mult name repoBase wtDir suffix ok start ++
        mainLaunchUnits ws mult name repoBase wtDir suffix ok
          (start + (effectiveN w mult).toNat)
      else
        mainLaunchUnits ws mult name repoBase wtDir suffix ok start

/-- The standalone-replicate config mistake: a window with a replication
count but no agent. -/
def c2FailingPreset : List Worktree := [{ Agent := "", N := 2 }]

/-- C2: launcher.Launch does not drop invalid windows. On the preset
consisting of the single invalid window (agent "", n 2), with every
worktree creation succeeding, its resolution loop emits two launchable
agent units whose agent name is empty, whereas the window is invalid and
the main.go path (which checks IsValid) emits none. -/
theorem launch_promotes_invalid_window :
    (launchUnits (launchPreset c2FailingPreset) 1 "task" "repo" "/wt"
        (fun i => toString i) (fun _ => true) 0).map
      (fun u => (u.Agent, u.IsCustomCommand)) = [("", false), ("", false)] ∧
    ({ Agent := "", N := 2 } : Worktree).IsValid = false ∧
    mainLaunchUnits c2FailingPreset 1 "task" "repo" "/wt"
      (fun i => toString i) (fun _ => true) 0 = [] := by
  refine ⟨?_, ?_, ?_⟩ <;> decide

theorem filter_flatMap_eq {α β : Type} (l : List α) (f : α → List β) (p : β → Bool) :
    (l.flatMap f).filter p = l.flatMap fun a => (f a).filter p := by
  induction l with
  | nil => simp
  | cons a l ih => simp [List.filter_append, ih]

theorem flatMap_congr_fun {α β : Type} (l : List α) (f g : α → List β)
    (h : ∀ a ∈ l, f a = g a) : l.flatMap f = l.flatMap g := by
  induction l with
  | nil => rfl
  | cons a l ih =>
    simp only [List.flatMap_cons]
    rw [h a (by simp), ih (fun b hb => h b (by simp [hb]))]

theorem flatMap_singleton_eq_map {α β : Type} (l : List α) (f : α → β) :
    (l.flatMap fun a => [f a]) = l.map f := by
  induction l <;> simp [*]

theorem map_const_range {β : Type} (n : Nat) (b : β) :
    (List.range n).map (fun _ => b) = List.replicate n b := by
  induction n with
  | zero => rfl
  | succ n ih => simp [List.range_succ, ih, List.replicate_succ']

theorem filter_map_commandUnits (name repoBase wtDir sfx : String)
    (cmds : List ConfigCommand) :
    (cmds.map (mkCommandUnit name repoBase wtDir sfx)).filter
      (fun u => u.IsCustomCommand = false) = [] := by
  induction cmds with
  | nil => rfl
  | cons c cs ih => simp [mkCommandUnit, List.filter_cons, ih]

theorem replicaBlock_filter_agents (w : Worktree) (name repoBase wtDir sfx : String) :
    (replicaBlock w name repoBase wtDir sfx).filter
      (fun u => u.IsCustomCommand = false) = [mkAgentUnit w name repoBase wtDir sfx] := by
  simp [replicaBlock, List.filter_cons, filter_map_commandUnits, mkAgentUnit]
  intro a _
  rfl

/-- C5: for every valid window and replication override, the effective
replication is the override when it exceeds one and max(1, n) otherwise
(hence 1 whenever n ≤ 0), and when every worktree creation succeeds the
resolution loop emits exactly that many replica blocks for the window,
each an agent unit immediately followed by one command unit per commands
entry sharing that replica's workspace path and branch. -/
theorem resolver_replication (w : Worktree) (mult : Int)
    (name repoBase wtDir : String) (suffix : Nat → String) (ok : Nat → Bool)
    (start : Nat) (hvalid : w.IsValid = true) (hok : ∀ n, ok n = true) :
    effectiveN w mult = (if mult > 1 then mult else max 1 w.N) ∧
    windowUnits w mult name repoBase wtDir suffix ok start =
      (List.range (effectiveN w mult).toNat).flatMap (fun i =>
        mkAgentUnit w name repoBase wtDir (suffix (start + i)) ::
          w.Commands.map (mkCommandUnit name repoBase wtDir (suffix (start + i)))) ∧
    ((windowUnits w mult name repoBase wtDir suffix ok start).filter
        (fun u => u.IsCustomCommand = false)).length = (effectiveN w mult).toNat := by
  have heff : effectiveN w mult = (if mult > 1 then mult else max 1 w.N) := by
    rw [effectiveN, Worktree.GetN]
    by_cases hm : mult > 1
    · simp [hm]
    · by_cases hn : w.N ≤ 0 <;> simp [hm, hn] <;> omega
  have hwin : windowUnits w mult name repoBase wtDir suffix ok start =
      (List.range (effectiveN w mult).toNat).flatMap (fun i =>
        replicaBlock w name repoBase wtDir (suffix (start + i))) := by
    rw [windowUnits]
    refine flatMap_congr_fun _ _ _ (fun i _ => ?_)
    rw [hok (start + i), if_pos rfl]
  refine ⟨heff, ?_, ?_⟩
  · rw [hwin]
    rfl
  · rw [hwin, filter_flatMap_eq]
    rw [flatMap_congr_fun _ _
      (fun i => [mkAgentUnit w name repoBase wtDir (suffix (start + i))])
      (fun i _ => replicaBlock_filter_agents w name repoBase wtDir (suffix (start + i)))]
    rw [flatMap_singleton_eq_map]
    simp

/-- A window used by the C5 witness: claude replicated with one command. -/
def c5Window : Worktree :=
  { Agent := "claude", N := 0, Commands := [{ Command := "npm run dev", Title := "Dev" }] }

/-- Witness for C5 at a concrete window with n = 0 (so effective
replication 1) and no override. -/
theorem resolver_replication_witness :
    c5Window.IsValid = true ∧ (∀ n : Nat, (fun _ : Nat => true) n = true) ∧
    (effectiveN c5Window 0 = (if (0 : Int) > 1 then 0 else max 1 c5Window.N) ∧
     windowUnits c5Window 0 "task" "repo" "/wt" (fun i => toString i)
         (fun _ => true) 0 =
       (List.range (effectiveN c5Window 0).toNat).flatMap (fun i =>
         mkAgentUnit c5Window "task" "repo" "/wt" (toString (0 + i)) ::
           c5Window.Commands.map
             (mkCommandUnit "task" "repo" "/wt" (toString (0 + i)))) ∧
     ((windowUnits c5Window 0 "task" "repo" "/wt" (fun i => toString i)
         (fun _ => true) 0).filter
       (fun u => u.IsCustomCommand = false)).length = (effectiveN c5Window 0).toNat) :=
  ⟨by decide, fun _ => rfl,
    resolver_replication c5Window 0 "task" "repo" "/wt" (fun i => toString i)
      (fun _ => true) 0 (by decide) (fun _ => rfl)⟩

/-- C10: with an empty preset, launcher.Launch substitutes a single claude
window (so its resolution yields one claude agent unit per effective
replication and no command units), while the direct-invocation entry
point substitutes a single droid window — the single-agent default
differs between the two entry points. -/
theorem default_preset_divergence (mult : Int) (name repoBase wtDir : String)
    (suffix : Nat → String) :
    launchPreset [] = [{ Agent := "claude" }] ∧
    mainDefaultWindows [] = [{ Agent := "droid" }] ∧
    (("claude" : String) == ("droid" : String)) = false ∧
    (launchUnits (launchPreset []) mult name repoBase wtDir suffix
        (fun _ => true) 0).map (fun u => (u.Agent, u.IsCustomCommand)) =
      List.replicate (effectiveN { Agent := "claude" } mult).toNat
        ("claude", false) := by
  refine ⟨rfl, rfl, by decide, ?_⟩
  rw [launchPreset, if_pos rfl]
  rw [launchUnits, launchUnits, List.append_nil]
  rw [windowUnits]
  rw [flatMap_congr_fun _ _
    (fun i => [mkAgentUnit { Agent := "claude" } name repoBase wtDir (suffix (0 + i))])
    (fun i _ => by rw [if_pos rfl, replicaBlock]; rfl)]
  rw [flatMap_singleton_eq_map, List.map_map]
  have hconst : ((fun u => (u.Agent, u.IsCustomCommand)) ∘
      fun i => mkAgentUnit { Agent := "claude" } name repoBase wtDir
        (suffix (0 + i))) = fun _ : Nat => (("claude" : String), false) := by
    funext i
    rfl
  rw [hconst, map_const_range]

/-- Embeds the batching loop of Manager.LaunchSessions (unnamed/part_004
lines 216-222): the ordered session list is cut into consecutive batches
of `m` with a shorter final batch. The Go loop advances by MaxPerWindow,
which the Manager constructor fixes at 6; for m = 0 the model returns no
batches (the Go loop would not terminate, and no Manager is built with a
non-positive capacity). -/
def chunkList {α : Type} (m : Nat) (l : List α) : List (List α) :=
  if h : m = 0 ∨ l.isEmpty then []
  else l.take m :: chunkList m (l.drop m)
termination_by l.length
decreasing_by
  push_neg at h
  rcases l with _ | ⟨a, l⟩
  · simp at h
  · simp only [List.length_drop, List.length_cons]
    omega

/-- Embeds Manager.WindowCount (unnamed/part_004 lines 267-272):
ceiling division of the session count by the per-window capacity, zero
for non-positive counts. Division is Go's truncating integer division
(Int.tdiv). -/
def WindowCount (maxPerWindow n : Int) : Int :=
  if n ≤ 0 then 0 else Int.tdiv (n + maxPerWindow - 1) maxPerWindow

/-- The per-window plan of LaunchSessions: for each batch, the pane count
passed to CreateGridLayout and the units sent to its panes in order. -/
def LaunchSessionsPlan (sessions : List SessionInfo) : List (Nat × List SessionInfo) :=
  (chunkList 6 sessions).map fun b => (b.length, b)

theorem chunkList_nil {α : Type} (m : Nat) : chunkList m ([] : List α) = [] := by
  rw [chunkList]
  simp

theorem chunkList_cons {α : Type} (m : Nat) (hm : m ≠ 0) (l : List α) (hl : l ≠ []) :
    chunkList m l = l.take m :: chunkList m (l.drop m) := by
  rw [chunkList]
  rw [dif_neg (by simp [hm, List.isEmpty_iff, hl])]

theorem chunkList_join {α : Type} (m : Nat) (hm : m ≠ 0) (l : List α) :
    (chunkList m l).flatten = l := by
  by_cases hl : l = []
  · subst hl
    simp [chunkList_nil]
  · rw [chunkList_cons m hm l hl]
    rw [List.flatten_cons, chunkList_join m hm (l.drop m)]
    exact List.take_append_drop m l
termination_by l.length
decreasing_by
  rcases l with _ | ⟨a, l⟩
  · exact absurd rfl hl
  · simp only [List.length_drop, List.length_cons]
    omega

theorem chunkList_mem_length {α : Type} (m : Nat) (hm : m ≠ 0) (l : List α)
    (b : List α) (hb : b ∈ chunkList m l) : 0 < b.length ∧ b.length ≤ m := by
  by_cases hl : l = []
  · subst hl
    rw [chunkList_nil] at hb
    simp at hb
  · rw [chunkList_cons m hm l hl, List.mem_cons] at hb
    rcases hb with hb | hb
    · subst hb
      refine ⟨?_, ?_⟩
      · simp only [List.length_take]
        have := List.length_pos.mpr hl
        omega
      · simp [List.length_take]
    · exact chunkList_mem_length m hm (l.drop m) b hb
termination_by l.length
decreasing_by
  rcases l with _ | ⟨a, l⟩
  · exact absurd rfl hl
  · simp only [List.length_drop, List.length_cons]
    omega

theorem chunkList_dropLast_length {α : Type} (m : Nat) (hm : m ≠ 0) (l : List α)
    (b : List α) (hb : b ∈ (chunkList m l).dropLast) : b.length = m := by
  by_cases hl : l = []
  · subst hl
    rw [chunkList_nil] at hb
    simp at hb
  · rw [chunkList_cons m hm l hl] at hb
    by_cases hrest : l.drop m = []
    · rw [hrest, chunkList_nil] at hb
      simp at hb
    · have hne : chunkList m (l.drop m) ≠ [] := by
        rw [chunkList_cons m hm (l.drop m) hrest]
        simp
      rw [List.dropLast_cons_of_ne_nil hne, List.mem_cons] at hb
      rcases hb with hb | hb
      · subst hb
        have hlong : m ≤ l.length := by
          by_contra hshort
          push_neg at hshort
          exact hrest (List.drop_eq_nil_of_le (by omega))
        simp only [List.length_take]
        omega
      · exact chunkList_dropLast_length m hm (l.drop m) b hb
termination_by l.length
decreasing_by
  rcases l with _ | ⟨a, l⟩
  · exact absurd rfl hl
  · simp only [List.length_drop, List.length_cons]
    omega

theorem dropLast_map_comm {α β : Type} (f : α → β) (l : List α) :
    (l.map f).dropLast = l.dropLast.map f := by
  induction l with
  | nil => rfl
  | cons a l ih =>
    rcases l with _ | ⟨b, t⟩
    · rfl
    · simp only [List.map_cons] at ih ⊢
      have h1 : (f b :: List.map f t) ≠ [] := by simp
      have h2 : (b :: t) ≠ [] := by simp
      rw [List.dropLast_cons_of_ne_nil h1, List.dropLast_cons_of_ne_nil h2,
        List.map_cons, ih]

theorem chunkList_count {α : Type} (m : Nat) (hm : m ≠ 0) (l : List α)
    (hl : l ≠ []) : (chunkList m l).length = (l.length + m - 1) / m := by
  rw [chunkList_cons m hm l hl]
  by_cases hrest : l.drop m = []
  · have hdroplen : (l.drop m).length = l.length - m := List.length_drop m l
    rw [hrest] at hdroplen
    simp only [List.length_nil] at hdroplen
    have hpos : 0 < l.length := List.length_pos.mpr hl
    rw [hrest, chunkList_nil]
    simp only [List.length_cons, List.length_nil]
    have heq : l.length + m - 1 = (l.length - 1) + m := by omega
    rw [heq, Nat.add_div_right _ (by omega), Nat.div_eq_of_lt (by omega)]
  · have hlong : m ≤ l.length := by
      by_contra hshort
      push_neg at hshort
      exact hrest (List.drop_eq_nil_of_le (by omega))
    rw [List.length_cons, chunkList_count m hm (l.drop m) hrest]
    rw [List.length_drop]
    have hstep : l.length + m - 1 = (l.length - m + m - 1) + m := by omega
    rw [hstep, Nat.add_div_right _ (by omega)]
termination_by l.length
decreasing_by
  rcases l with _ | ⟨a, l⟩
  · exact absurd rfl hl
  · simp only [List.length_drop, List.length_cons]
    omega

/-- C7: for more than six launch units, LaunchSessions cuts the ordered
list into consecutive batches of exactly six with a possibly shorter
final batch, creates one window per batch with a layout call sized to
that batch's length, assigns units to panes strictly in chunk order (the
concatenation of the batches is the original list), and the window count
is the ceiling of n/6, agreeing with Manager.WindowCount. -/
theorem launchSessions_batching (sessions : List SessionInfo)
    (h : 6 < sessions.length) :
    (LaunchSessionsPlan sessions).length = (sessions.length + 5) / 6 ∧
    1 < (LaunchSessionsPlan sessions).length ∧
    ((LaunchSessionsPlan sessions).map Prod.snd).flatten = sessions ∧
    (∀ pb ∈ LaunchSessionsPlan sessions, pb.1 = pb.2.length ∧
      0 < pb.2.length ∧ pb.2.length ≤ 6) ∧
    (∀ pb ∈ (LaunchSessionsPlan sessions).dropLast, pb.2.length = 6) ∧
    WindowCount 6 sessions.length = ((sessions.length + 5) / 6 : Nat) := by
  have hne : sessions ≠ [] := by
    intro hnil
    rw [hnil] at h
    simp at h
  have hcount : (chunkList 6 sessions).length = (sessions.length + 5) / 6 :=
    chunkList_count 6 (by omega) sessions hne
  refine ⟨?_, ?_, ?_, ?_, ?_, ?_⟩
  · rw [LaunchSessionsPlan, List.length_map]
    exact hcount
  · rw [LaunchSessionsPlan, List.length_map, hcount]
    have h2 : 2 ≤ (sessions.length + 5) / 6 :=
      (Nat.le_div_iff_mul_le (by omega)).mpr (by omega)
    omega
  · rw [LaunchSessionsPlan, List.map_map]
    have hid : (Prod.snd ∘ fun b : List SessionInfo => (b.length, b)) = id := by
      funext b
      rfl
    rw [hid, List.map_id]
    exact chunkList_join 6 (by omega) sessions
  · intro pb hpb
    rw [LaunchSessionsPlan] at hpb
    obtain ⟨b, hb, rfl⟩ := List.mem_map.mp hpb
    have := chunkList_mem_length 6 (by omega) sessions b hb
    exact ⟨rfl, this.1, this.2⟩
  · intro pb hpb
    rw [LaunchSessionsPlan] at hpb
    rw [dropLast_map_comm] at hpb
    obtain ⟨b, hb, rfl⟩ := List.mem_map.mp hpb
    exact chunkList_dropLast_length 6 (by omega) sessions b hb
  · rw [WindowCount, if_neg (by omega)]
    have harg : ((sessions.length : Int)) + 6 - 1 = ((sessions.length + 5 : Nat) : Int) := by
      push_cast
      ring
    rw [harg]
    have h6 : ((6 : Int)) = (((6 : Nat)) : Int) := by norm_num
    rw [h6, ← Int.ofNat_tdiv]

/-- A session list of seven identical units for the C7 witness. -/
def sevenSessions : List SessionInfo :=
  List.replicate 7 { Agent := "claude", Branch := "b", Path := "/p" }

/-- Witness for C7 at the spec's scenario: seven units give two batches of
sizes six and one, and the plan length follows the batching theorem. -/
theorem launchSessions_batching_witness :
    6 < sevenSessions.length ∧
    ((LaunchSessionsPlan sevenSessions).map Prod.fst = [6, 1] ∧
      (LaunchSessionsPlan sevenSessions).length = (sevenSessions.length + 5) / 6) := by
  have hchunk : chunkList 6 sevenSessions =
      [sevenSessions.take 6, sevenSessions.drop 6] := by
    rw [chunkList_cons 6 (by omega) sevenSessions (by decide)]
    rw [chunkList_cons 6 (by omega) (sevenSessions.drop 6) (by decide)]
    have h2 : (sevenSessions.drop 6).drop 6 = [] := by decide
    have h3 : (sevenSessions.drop 6).take 6 = sevenSessions.drop 6 := by decide
    rw [h2, h3, chunkList_nil]
  refine ⟨by decide, ?_, (launchSessions_batching sevenSessions (by decide)).1⟩
  rw [LaunchSessionsPlan, hchunk]
  decide

/-- Embeds constants.ViewType (internal/tui/constants/constants.go): the
four views, in declaration order. -/
inductive ViewType
  | worktrees
  | launch
  | settings
  | presets
deriving DecidableEq, Repr

/-- Embeds Model.nextView (unnamed/part_006 lines 474-486). -/
def nextViewOf : ViewType → ViewType
  | ViewType.worktrees => ViewType.launch
  | ViewType.launch => ViewType.settings
  | ViewType.settings => ViewType.presets
  | ViewType.presets => ViewType.worktrees

/-- Embeds Model.prevView (unnamed/part_006 lines 488-500). -/
def prevViewOf : ViewType → ViewType
  | ViewType.worktrees => ViewType.presets
  | ViewType.presets => ViewType.settings
  | ViewType.settings => ViewType.launch
  | ViewType.launch => ViewType.worktrees

/-- The view order named by claim C8: Workspaces, Launch, Settings,
PresetInfo. -/
def viewOrder : List ViewType :=
  [ViewType.worktrees, ViewType.launch, ViewType.settings, ViewType.presets]

def viewIndex : ViewType → Nat
  | ViewType.worktrees => 0
  | ViewType.launch => 1
  | ViewType.settings => 2
  | ViewType.presets => 3

/-- The cyclic successor in the claimed order. -/
def cyclicSucc (v : ViewType) : ViewType :=
  viewOrder.getD ((viewIndex v + 1) % 4) ViewType.worktrees

/-- The cyclic predecessor in the claimed order. -/
def cyclicPred (v : ViewType) : ViewType :=
  viewOrder.getD ((viewIndex v + 3) % 4) ViewType.worktrees

/-- Embeds the UI-state part of context.ProgramContext
(internal/tui/context/context.go): the active view, the transient status
line, and whether an error value is set. -/
structure ProgramContext where
  View : ViewType
  StatusMessage : String
  StatusIsError : Bool
  ErrorSet : Bool
deriving DecidableEq, Repr

/-- Embeds ProgramContext.ClearStatus (context.go lines 106-110). -/
def ClearStatus (ctx : ProgramContext) : ProgramContext :=
  { ctx with StatusMessage := "", StatusIsError := false, ErrorSet := false }

/-- Embeds ProgramContext.SetView (context.go lines 94-97): sets the view
and clears the status. -/
def SetView (ctx : ProgramContext) (v : ViewType) : ProgramContext :=
  ClearStatus { ctx with View := v }

/-- The launch form state relevant to key dispatch (unnamed/part_008):
the focused field index (0 repo, 1 name, 2 prompt, 3 preset, 4 launch). -/
structure LaunchModel where
  focused : Nat
  presetIdx : Nat
  presetsLen : Nat
deriving DecidableEq, Repr

/-- Embeds launch.Model.IsAtTop: focused on the repo field. -/
def LaunchModel.IsAtTop (m : LaunchModel) : Bool :=
  m.focused = 0

/-- Embeds launch.Model.ConsumesKey (part_008 lines 463-468): left/right
are claimed exclusively while the preset field is focused. -/
def LaunchModel.ConsumesKey (m : LaunchModel) (k : String) : Bool :=
  if k = "left" ∨ k = "right" then decide (m.focused = 3) else false

/-- The launch form's response to the tab key (part_008 lines 127-129):
advance to the next field, no command. Other keys are left unmodelled
(identity) since only tab reaches the outer view-cycling dispatch. -/
def launchUpdateKey (m : LaunchModel) (k : String) : LaunchModel :=
  if k = "tab" then { m with focused := (m.focused + 1) % 5 } else m

/-- The settings form state relevant to key dispatch
(internal/tui/components/settingsform/settingsform.go). -/
structure SettingsModel where
  categoryIndex : Nat
  settingIndex : Nat
  editing : Bool
  categoriesLen : Nat
deriving DecidableEq, Repr

/-- Embeds settingsform.Model.IsAtTop. -/
def SettingsModel.IsAtTop (m : SettingsModel) : Bool :=
  decide (m.categoryIndex = 0 ∧ m.settingIndex = 0 ∧ m.editing = false)

/-- Embeds settingsform.Model.ConsumesKey (settingsform.go lines
513-519): while editing, left/right/esc/enter are claimed exclusively. -/
def SettingsModel.ConsumesKey (m : SettingsModel) (k : String) : Bool :=
  m.editing && decide (k = "left" ∨ k = "right" ∨ k = "esc" ∨ k = "enter")

/-- The settings form's response to the tab key. Navigating: nextCategory
(wrap, reset setting index), no command. Editing: tab is not enter/esc;
a select, number or toggle setting ignores it, a text setting delegates
to the upstream textinput which issues no command for tab, and a missing
current setting drops out of editing; in every case no command. -/
def settingsUpdateKey (m : SettingsModel) (k : String) : SettingsModel :=
  if k = "tab" then
    if m.editing then
      if m.categoriesLen = 0 then { m with editing := false } else m
    else
      if m.categoriesLen = 0 then m
      else { m with categoryIndex := (m.categoryIndex + 1) % m.categoriesLen,
                    settingIndex := 0 }
  else m

/-- The worktrees list state relevant to key dispatch (unnamed/part_008
worktrees component). -/
structure WorktreesModel where
  selected : Nat
  count : Nat
  confirmingDelete : Bool
deriving DecidableEq, Repr

/-- Embeds worktrees.Model.IsAtTop. -/
def WorktreesModel.IsAtTop (m : WorktreesModel) : Bool :=
  m.selected = 0

/-- The worktrees list's response to the tab key: no case of its Update
matches tab (also not while confirming a delete), so the state is
unchanged and no command is issued. -/
def worktreesUpdateKey (m : WorktreesModel) (k : String) : WorktreesModel :=
  m

/-- Embeds the FocusArea of the top-level TUI model (unnamed/part_006
lines 194-199). -/
inductive FocusArea
  | content
  | header
deriving DecidableEq, Repr

/-- The top-level TUI model state relevant to the navigation claims
(unnamed/part_006 Model). -/
structure TuiModel where
  ctx : ProgramContext
  focus : FocusArea
  headerFocused : Bool
  launchForm : LaunchModel
  settingsForm : SettingsModel
  worktreeList : WorktreesModel
deriving DecidableEq, Repr

/-- The post-dispatch block of Model.Update (part_006 lines 343-356): when
the active view neither consumed the key nor produced a command, tab
cycles to the next view and esc/backspace returns to the worktrees
view. -/
def afterViewDispatch (m : TuiModel) (k : String) (consumed cmdSome : Bool) :
    TuiModel :=
  if consumed = false ∧ cmdSome = false then
    if k = "tab" then { m with ctx := SetView m.ctx (nextViewOf m.ctx.View) }
    else if k = "esc" ∨ k = "backspace" then
      if m.ctx.View ≠ ViewType.worktrees then
        { m with ctx := SetView m.ctx ViewType.worktrees }
      else m
    else m
  else m

/-- The key dispatch of Model.Update (part_006 lines 261-358) for the
navigation keys the claims concern (tab, arrows, esc); the global
ctrl-key bindings checked first match none of these, and keys outside
this set leave the model unchanged here. In header focus, down returns to
content and left/right cycle views; in content focus the key goes to the
active view (for these keys every component returns no command, and
ConsumesKey is consulted for the launch and settings forms) and then to
the post-dispatch block. -/
def updateKey (m : TuiModel) (k : String) : TuiModel :=
  if m.focus = FocusArea.header then
    if k = "down" then { m with focus := FocusArea.content, headerFocused := false }
    else if k = "left" then
      { m with ctx := SetView m.ctx (prevViewOf m.ctx.View),
               focus := FocusArea.header, headerFocused := true }
    else if k = "right" then
      { m with ctx := SetView m.ctx (nextViewOf m.ctx.View),
               focus := FocusArea.header, headerFocused := true }
    else afterViewDispatch m k false false
  else
    match m.ctx.View with
    | ViewType.worktrees =>
      if k = "up" ∧ m.worktreeList.IsAtTop then
        { m with focus := FocusArea.header, headerFocused := true }
      else
        afterViewDispatch { m with worktreeList := worktreesUpdateKey m.worktreeList k }
          k false false
    | ViewType.launch =>
      if k = "up" ∧ m.launchForm.IsAtTop then
        { m with focus := FocusArea.header, headerFocused := true }
      else
        afterViewDispatch { m with launchForm := launchUpdateKey m.launchForm k }
          k (m.launchForm.ConsumesKey k) false
    | ViewType.settings =>
      if k = "up" ∧ m.settingsForm.IsAtTop then
        { m with focus := FocusArea.header, headerFocused := true }
      else
        afterViewDispatch { m with settingsForm := settingsUpdateKey m.settingsForm k }
          k (m.settingsForm.ConsumesKey k) false
    | ViewType.presets =>
      if k = "up" then
        { m with focus := FocusArea.header, headerFocused := true }
      else afterViewDispatch m k false false

/-- C8: every view-cycling transition — tab from any focus, and left or
right while the header is focused — moves the active view to its cyclic
successor (or predecessor) in the order Workspaces, Launch, Settings,
PresetInfo with wrap-around, and clears any transient status message. -/
theorem view_cycling (m : TuiModel) :
    ((updateKey m "tab").ctx.View = cyclicSucc m.ctx.View ∧
     (updateKey m "tab").ctx.StatusMessage = "" ∧
     (updateKey m "tab").ctx.StatusIsError = false) ∧
    (m.focus = FocusArea.header →
      (updateKey m "right").ctx.View = cyclicSucc m.ctx.View ∧
      (updateKey m "right").ctx.StatusMessage = "" ∧
      (updateKey m "left").ctx.View = cyclicPred m.ctx.View ∧
      (updateKey m "left").ctx.StatusMessage = "") ∧
    (∀ v, nextViewOf v = cyclicSucc v ∧ prevViewOf v = cyclicPred v) := by
  have horder : ∀ v, nextViewOf v = cyclicSucc v ∧ prevViewOf v = cyclicPred v := by
    intro v
    cases v <;> exact ⟨rfl, rfl⟩
  refine ⟨?_, ?_, horder⟩
  · rcases hf : m.focus with _ | _
    · rcases hv : m.ctx.View with _ | _ | _ | _ <;>
        simp [updateKey, hf, hv, afterViewDispatch, SetView, ClearStatus,
          LaunchModel.ConsumesKey, SettingsModel.ConsumesKey, ← horder]
    · simp [updateKey, hf, afterViewDispatch, SetView, ClearStatus, ← horder]
  · intro hf
    simp [updateKey, hf, SetView, ClearStatus, ← horder]

/-- A concrete header-focused model for the C8 witness. -/
def c8Model : TuiModel :=
  { ctx := { View := ViewType.settings, StatusMessage := "saved",
             StatusIsError := false, ErrorSet := false },
    focus := FocusArea.header, headerFocused := true,
    launchForm := { focused := 0, presetIdx := 0, presetsLen := 1 },
    settingsForm := { categoryIndex := 0, settingIndex := 0, editing := false,
                      categoriesLen := 3 },
    worktreeList := { selected := 0, count := 2, confirmingDelete := false } }

/-- Witness for C8 at a concrete header-focused state with a pending
status message: right moves Settings to PresetInfo and clears the
status. -/
theorem view_cycling_witness :
    c8Model.focus = FocusArea.header ∧
    (updateKey c8Model "right").ctx.View = cyclicSucc c8Model.ctx.View ∧
    (updateKey c8Model "right").ctx.StatusMessage = "" :=
  ⟨rfl, ((view_cycling c8Model).2.1 rfl).1, ((view_cycling c8Model).2.1 rfl).2.1⟩

end Orchestrate
